import Mathlib

/-!
Verification development for the Magelang tourist-destination app
(`src/app.py`).  The core logic embedded here:

* `recommend_places` (app.py lines 53-66): top-N recommendation from a
  pre-trained matrix-factorization model, modelled by an injected
  `predict` function (the model artifact is opaque; estimated ratings
  are modelled as exact integers, only their ordering matters to the
  code).
* `search_place` / `relevance_score` (app.py lines 71-89): keyword
  search over the place catalog with relevance ranking.
* `avg_rating` (app.py lines 127-133): per-place average rating shown
  in the UI, with the `np.isnan` branch modelled as `Option`.

Strings are modelled as `List Char`; Python `str.lower` is modelled by
`Char.toLower` (they agree on ASCII, which covers all the data used
here).  Pandas dataframes are modelled as lists of rows in table order.
-/

/-- A string, modelled as its list of characters. -/
abbrev Str := List Char

/-- Python `s.lower()`, character-wise ASCII lowercasing. -/
def lowerStr (s : Str) : Str := s.map Char.toLower

/-- Scanner for Python `s.count(sub)` with non-empty `sub`: counts
non-overlapping occurrences left to right.  The `Nat` argument is the
number of characters still to skip after a match (a match at a position
consumes `sub.length` characters). -/
def countAux (sub : Str) : Str → Nat → Nat
  | [], _ => 0
  | _ :: rest, Nat.succ k => countAux sub rest k
  | c :: rest, 0 =>
      if sub.isPrefixOf (c :: rest) then 1 + countAux sub rest (sub.length - 1)
      else countAux sub rest 0

/-- Python `s.count(sub)`: number of non-overlapping occurrences of
`sub` in `s`; for the empty `sub` Python returns `len(s) + 1`. -/
def pyCount (s sub : Str) : Nat :=
  if sub.isEmpty then s.length + 1 else countAux sub s 0

/-- Literal (non-regex) substring test: does `sub` occur contiguously in
`s`?  The empty `sub` occurs in every string. -/
def isSubstr (sub : Str) : Str → Bool
  | [] => sub.isEmpty
  | c :: rest => sub.isPrefixOf (c :: rest) || isSubstr sub rest

/-- Case-insensitive literal substring containment.  Modelled from the
spec: "places whose name or description contains keyword,
case-insensitive, substring match (not tokenized, not fuzzy)".  Used to
compare the spec's wording against what `pandas.Series.str.contains`
(which treats the keyword as a regular expression) actually does. -/
def containsCI (sub s : Str) : Bool :=
  isSubstr (lowerStr sub) (lowerStr s)

/-- One step of the regex matcher underlying
`Series.str.contains(keyword, case=False, regex=True)`: does pattern
`pat` match a prefix of `s`?  The embedding covers the regex fragment
consisting of literal characters, the `.` metacharacter (any character
except a newline), and the escape classes `\d` (decimal digit) and `\D`
(non-digit); a backslash followed by any other character stands for that
character literally (faithful for escaped punctuation such as `\\` and
`\.`).  `case=False` is `re.IGNORECASE`, modelled by comparing
lowercased characters; the selector letter of an escape is
case-significant (`\d` and `\D` are complementary classes), exactly as
in `re`. -/
def reMatchAt : Str → Str → Bool
  | [], _ => true
  | p :: ps, s =>
      if p = ('\\' : Char) then
        match ps, s with
        | e :: ps2, c :: cs =>
            (if e = ('d' : Char) then c.isDigit
             else if e = ('D' : Char) then !c.isDigit
             else decide (e.toLower = c.toLower)) && reMatchAt ps2 cs
        | _ :: _, [] => false
        | [], c :: _ => decide (c = ('\\' : Char))
        | [], [] => false
      else
        match s with
        | c :: cs =>
            (if p = ('.' : Char) then decide (c ≠ ('\n' : Char))
             else decide (p.toLower = c.toLower)) && reMatchAt ps cs
        | [] => false

/-- `re.search` for the fragment above: does `pat` match at some
position of `s` (including the position at the end of `s`)? -/
def reSearch (pat : Str) : Str → Bool
  | [] => pat.isEmpty
  | c :: rest => reMatchAt pat (c :: rest) || reSearch pat rest

/-- A row of the place catalog `Dataset_tourisMagelang.csv`
(`place_df`): id, name, nullable description. -/
structure Place where
  place_id : Nat
  place_name : Str
  description : Option Str
deriving DecidableEq, Repr

/-- A row of the rating table `Dataset_Rating_Mgl.csv` (`rating_df`). -/
structure RatingRow where
  user_id : Nat
  place_id : Nat
  place_name : Str
  place_rating : Int
deriving DecidableEq, Repr

/-- One entry of the recommendation output: the tuple
`(place, place_name, est_rating)` built in `recommend_places`
(app.py line 63). -/
structure PredRow where
  place_id : Nat
  place_name : Str
  est : Int
deriving DecidableEq, Repr

/-- `place_df[place_df['Place_Name'].str.contains(keyword, case=False, na=False)]`
(app.py line 75). -/
def nameMatch (kw : Str) (place_df : List Place) : List Place :=
  place_df.filter (fun p => reSearch kw p.place_name)

/-- `place_df[place_df['Description'].str.contains(keyword, case=False, na=False)]`
(app.py line 76); `na=False` makes a missing description never match. -/
def descMatch (kw : Str) (place_df : List Place) : List Place :=
  place_df.filter (fun p =>
    match p.description with
    | some d => reSearch kw d
    | none => false)

/-- Scanner for pandas `drop_duplicates()`: keep the first occurrence of
each row, dropping later equal rows; `seen` accumulates rows already
emitted. -/
def dropDupAux (seen : List Place) : List Place → List Place
  | [] => []
  | p :: rest =>
      if p ∈ seen then dropDupAux seen rest
      else p :: dropDupAux (p :: seen) rest

/-- `pd.concat(...).drop_duplicates()` applied to a row list
(app.py line 78). -/
def dropDuplicates (l : List Place) : List Place := dropDupAux [] l

/-- The matched, deduplicated set of step 1 of the search
(app.py line 78): name matches first, then description matches, with
duplicate rows dropped (a row matching via both lists is kept once, at
its first position). -/
def matchedPlaces (kw : Str) (place_df : List Place) : List Place :=
  dropDuplicates (nameMatch kw place_df ++ descMatch kw place_df)

/-- `relevance_score(row)` (app.py lines 83-86):
`name.lower().count(keyword_lower) * 2 + desc.lower().count(keyword_lower)`,
with a missing description contributing `0`. -/
def relevance_score (kw : Str) (p : Place) : Nat :=
  2 * pyCount (lowerStr p.place_name) (lowerStr kw) +
    (match p.description with
     | some d => pyCount (lowerStr d) (lowerStr kw)
     | none => 0)

/-- The matched rows paired with their `Relevance` column
(app.py line 88). -/
def scoredResults (kw : Str) (place_df : List Place) : List (Place × Nat) :=
  (matchedPlaces kw place_df).map (fun p => (p, relevance_score kw p))

/-- `results.sort_values(by="Relevance", ascending=False)`
(app.py line 89).  Pandas implements `ascending=False` by sorting
ascending and reversing the whole indexer; the underlying default sort
is modelled as a stable ascending sort (numpy's introsort degenerates to
a stable insertion sort on small arrays, and any two stable sorts agree
extensionally), so ties come out in reversed table order. -/
def sortValuesDesc (l : List (Place × Nat)) : List (Place × Nat) :=
  (List.insertionSort (fun a b => a.2 ≤ b.2) l).reverse

/-- `search_place(keyword)` (app.py lines 71-89): match by name or
description, deduplicate, return early if empty, otherwise score and
sort by relevance descending. -/
def search_place (kw : Str) (place_df : List Place) : List (Place × Nat) :=
  if (matchedPlaces kw place_df).isEmpty then []
  else sortValuesDesc (scoredResults kw place_df)

/-- `rating_df[rating_df['User_Id'] == user_id]['Place_Id'].values`
(app.py line 55): the ids of places already rated by the user. -/
def ratedPlaces (rating_df : List RatingRow) (user_id : Nat) : List Nat :=
  (rating_df.filter (fun r => r.user_id = user_id)).map (fun r => r.place_id)

/-- `place_df['Place_Id'].values` (app.py line 56). -/
def allPlaces (place_df : List Place) : List Nat :=
  place_df.map (fun p => p.place_id)

/-- `[p for p in all_places if p not in rated_places]` (app.py line 57). -/
def unratedPlaces (rating_df : List RatingRow) (place_df : List Place)
    (user_id : Nat) : List Nat :=
  (allPlaces place_df).filter (fun p => ¬ p ∈ ratedPlaces rating_df user_id)

/-- `place_df[place_df['Place_Id'] == place]['Place_Name'].values[0]`
(app.py line 62), as a fallible lookup: the `[0]` indexing raises if no
catalog row has the given id, modelled by `none`. -/
def lookupName (place_df : List Place) (p : Nat) : Option Str :=
  ((place_df.filter (fun q => q.place_id = p)).map (fun q => q.place_name)).head?

/-- The `predictions` list built by the loop of app.py lines 59-63: one
`PredRow` per unrated place, in order; `none` if any name lookup fails
(the loop would raise an `IndexError` there). -/
def buildPreds (predict : Nat → Nat → Int) (user_id : Nat)
    (place_df : List Place) : List Nat → Option (List PredRow)
  | [] => some []
  | p :: rest =>
      match lookupName place_df p, buildPreds predict user_id place_df rest with
      | some nm, some l => some (⟨p, nm, predict user_id p⟩ :: l)
      | _, _ => none

/-- `predictions.sort(key=lambda x: x[2], reverse=True)` (app.py
line 65): Python's stable sort with a reversed comparison, so ties keep
their original order. -/
def sortPredsDesc (l : List PredRow) : List PredRow :=
  List.insertionSort (fun a b => b.est ≤ a.est) l

/-- Python list slicing `l[:n]` for a possibly negative `n`:
a non-negative bound takes the first `n` elements; a negative bound
drops the last `|n|` elements. -/
def pySlice (n : Int) (l : List α) : List α :=
  if 0 ≤ n then l.take n.toNat else l.take (l.length - (-n).toNat)

/-- `recommend_places(user_id, top_n)` (app.py lines 53-66),
parametrized by the opaque model's `predict` (app.py lines 48-51 take
`model.predict(user_id, place_id).est`). -/
def recommend_places (predict : Nat → Nat → Int) (rating_df : List RatingRow)
    (place_df : List Place) (user_id : Nat) (top_n : Int) :
    Option (List PredRow) :=
  (buildPreds predict user_id place_df
      (unratedPlaces rating_df place_df user_id)).map
    (fun preds => pySlice top_n (sortPredsDesc preds))

/-- The rating values whose `Place_Name` matches the given name
case-insensitively (app.py lines 127-128), duplicates included. -/
def ratingsFor (rating_df : List RatingRow) (place_name : Str) : List Int :=
  (rating_df.filter
      (fun r => lowerStr r.place_name = lowerStr place_name)).map
    (fun r => r.place_rating)

/-- `Series.mean()`: the arithmetic mean of the values, `none` (pandas
`NaN`) for an empty series. -/
def seriesMean (l : List Int) : Option Rat :=
  if l.isEmpty then none
  else some ((l.map (fun v => (v : Rat))).sum / l.length)

/-- The average-rating computation of app.py lines 127-133:
`rating_df[rating_df['Place_Name'].str.lower() == name.lower()]['Place_Rating'].mean()`,
with the `np.isnan` branch (line 130) represented by `Option`:
`none` is the explicit "no rating yet" outcome. -/
def avg_rating (rating_df : List RatingRow) (place_name : Str) : Option Rat :=
  seriesMean
    ((rating_df.filter
        (fun r => lowerStr r.place_name = lowerStr place_name)).map
      (fun r => r.place_rating))

/-! ### Fixtures used by witnesses and counterexamples -/

/-- The place of the spec's worked relevance example. -/
def placeBoro : Place :=
  ⟨1, ("Borobudur Temple").data, some (("Visit Borobudur for sunrise").data)⟩

/-- A one-letter place with no description. -/
def placeA : Place := ⟨1, ("a").data, none⟩

/-- A two-place catalog. -/
def pdfC : List Place := [⟨1, ("A").data, none⟩, ⟨2, ("B").data, none⟩]

/-- A concrete stand-in for the trained model: the estimated rating of a
place is its id. -/
def pcC : Nat → Nat → Int := fun _ p => (p : Int)

/-- Two places with the same one-letter name and distinct ids. -/
def p1 : Place := ⟨1, ("x").data, none⟩

/-- See `p1`. -/
def p2 : Place := ⟨2, ("x").data, none⟩

/-- A rating table with three ratings 4, 5, 3 for one place. -/
def rdfEx : List RatingRow :=
  [⟨1, 1, ("x").data, 4⟩, ⟨2, 1, ("x").data, 5⟩, ⟨3, 1, ("x").data, 3⟩]

/-- A place whose name contains no dot and that has no description. -/
def placeAB : Place := ⟨1, ("ab").data, none⟩

/-- The search-result entry for `placeBoro` under the query of the
spec's worked example. -/
def eBoro : Place × Nat := (placeBoro, 3)

/-! ### Deduplication lemmas -/

theorem mem_dropDupAux {x : Place} :
    ∀ (seen l : List Place), x ∈ dropDupAux seen l ↔ x ∈ l ∧ x ∉ seen := by
  intro seen l
  induction l generalizing seen with
  | nil => simp [dropDupAux]
  | cons p rest ih =>
      by_cases hp : p ∈ seen
      · rw [dropDupAux, if_pos hp, ih]
        simp only [List.mem_cons]
        constructor
        · rintro ⟨h1, h2⟩
          exact ⟨Or.inr h1, h2⟩
        · rintro ⟨rfl | h1, h2⟩
          · exact absurd hp h2
          · exact ⟨h1, h2⟩
      · rw [dropDupAux, if_neg hp]
        simp only [List.mem_cons, ih]
        constructor
        · rintro (rfl | ⟨h1, h2⟩)
          · exact ⟨Or.inl rfl, hp⟩
          · exact ⟨Or.inr h1, fun hx => h2 (Or.inr hx)⟩
        · rintro ⟨h1 | h1, h2⟩
          · exact Or.inl h1
          · by_cases hxp : x = p
            · exact Or.inl hxp
            · exact Or.inr ⟨h1, fun hx => hx.elim hxp h2⟩

theorem nodup_dropDupAux : ∀ (seen l : List Place), (dropDupAux seen l).Nodup := by
  intro seen l
  induction l generalizing seen with
  | nil => simp [dropDupAux]
  | cons p rest ih =>
      by_cases hp : p ∈ seen
      · rw [dropDupAux, if_pos hp]
        exact ih seen
      · rw [dropDupAux, if_neg hp]
        refine List.nodup_cons.mpr ⟨fun hmem => ?_, ih (p :: seen)⟩
        exact ((mem_dropDupAux _ _).mp hmem).2 (List.mem_cons_self p _)

theorem mem_dropDuplicates {x : Place} {l : List Place} :
    x ∈ dropDuplicates l ↔ x ∈ l := by
  rw [dropDuplicates, mem_dropDupAux]
  simp

theorem nodup_dropDuplicates (l : List Place) : (dropDuplicates l).Nodup :=
  nodup_dropDupAux [] l

theorem dropDuplicates_eq_nil {l : List Place} :
    dropDuplicates l = [] ↔ l = [] := by
  cases l with
  | nil => simp [dropDuplicates, dropDupAux]
  | cons p rest => simp [dropDuplicates, dropDupAux]

/-! ### Search membership lemmas -/

theorem mem_matchedPlaces {p : Place} {kw : Str} {df : List Place} :
    p ∈ matchedPlaces kw df ↔
      p ∈ df ∧ (reSearch kw p.place_name = true ∨
        ∃ d, p.description = some d ∧ reSearch kw d = true) := by
  rw [matchedPlaces, mem_dropDuplicates, List.mem_append, nameMatch, descMatch]
  simp only [List.mem_filter]
  constructor
  · rintro (⟨h1, h2⟩ | ⟨h1, h2⟩)
    · exact ⟨h1, Or.inl h2⟩
    · refine ⟨h1, Or.inr ?_⟩
      cases hd : p.description with
      | none => rw [hd] at h2; exact absurd h2 (by simp)
      | some d => rw [hd] at h2; exact ⟨d, rfl, h2⟩
  · rintro ⟨h1, h2 | ⟨d, hd, h2⟩⟩
    · exact Or.inl ⟨h1, h2⟩
    · exact Or.inr ⟨h1, by rw [hd]; exact h2⟩

theorem scoredResults_eq_nil {kw : Str} {df : List Place} :
    scoredResults kw df = [] ↔ matchedPlaces kw df = [] := by
  rw [scoredResults]
  simp

theorem mem_search_place {e : Place × Nat} {kw : Str} {df : List Place} :
    e ∈ search_place kw df ↔
      ∃ p ∈ matchedPlaces kw df, e = (p, relevance_score kw p) := by
  rw [search_place]
  by_cases h : (matchedPlaces kw df).isEmpty
  · rw [if_pos h]
    rw [List.isEmpty_iff] at h
    simp [h]
  · rw [if_neg h, sortValuesDesc, List.mem_reverse, List.mem_insertionSort,
      scoredResults]
    simp only [List.mem_map]
    constructor
    · rintro ⟨p, hp, rfl⟩
      exact ⟨p, hp, rfl⟩
    · rintro ⟨p, hp, rfl⟩
      exact ⟨p, hp, rfl⟩

/-! ### Characters and the regex fragment -/

theorem reMatchAt_cons_nil (p : Char) (ps : Str) :
    reMatchAt (p :: ps) [] = false := by
  unfold reMatchAt
  by_cases hp : p = ('\\' : Char)
  · rw [if_pos hp]
    cases ps
    · rfl
    · rfl
  · rw [if_neg hp]

theorem reMatchAt_cons_cons {p : Char} (hp : p ≠ ('\\' : Char)) (ps : Str)
    (c : Char) (cs : Str) :
    reMatchAt (p :: ps) (c :: cs) =
      ((if p = ('.' : Char) then decide (c ≠ ('\n' : Char))
        else decide (p.toLower = c.toLower)) && reMatchAt ps cs) := by
  conv_lhs => unfold reMatchAt
  rw [if_neg hp]

theorem reMatchAt_iff {pat : Str} (h : ('.' : Char) ∉ pat)
    (hb : ('\\' : Char) ∉ pat) :
    ∀ s, (reMatchAt pat s = true ↔ (lowerStr pat).isPrefixOf (lowerStr s) = true) := by
  induction pat with
  | nil =>
      intro s
      simp [reMatchAt, lowerStr, List.isPrefixOf]
  | cons p ps ih =>
      intro s
      have hp : p ≠ ('.' : Char) := fun hc => h (hc ▸ List.mem_cons_self _ _)
      have hpb : p ≠ ('\\' : Char) := fun hc => hb (hc ▸ List.mem_cons_self _ _)
      have hps : ('.' : Char) ∉ ps := fun hc => h (List.mem_cons_of_mem _ hc)
      have hpsb : ('\\' : Char) ∉ ps := fun hc => hb (List.mem_cons_of_mem _ hc)
      cases s with
      | nil =>
          rw [reMatchAt_cons_nil]
          simp [lowerStr, List.isPrefixOf]
      | cons c cs =>
          rw [reMatchAt_cons_cons hpb, if_neg hp]
          have ih2 := ih hps hpsb cs
          simp only [lowerStr] at ih2 ⊢
          simp only [List.map_cons, List.isPrefixOf, Bool.and_eq_true,
            decide_eq_true_eq, beq_iff_eq]
          exact and_congr Iff.rfl ih2

theorem reSearch_iff {pat : Str} (h : ('.' : Char) ∉ pat)
    (hb : ('\\' : Char) ∉ pat) :
    ∀ s, (reSearch pat s = true ↔ isSubstr (lowerStr pat) (lowerStr s) = true) := by
  intro s
  induction s with
  | nil =>
      simp only [reSearch, lowerStr, List.map_nil, isSubstr,
        List.isEmpty_eq_true, List.map_eq_nil_iff]
  | cons c cs ih =>
      simp only [reSearch, lowerStr, List.map_cons, isSubstr, Bool.or_eq_true]
      exact or_congr (by simpa [lowerStr] using reMatchAt_iff h hb (c :: cs)) ih

theorem countAux_pos {sub : Str} (hs : sub ≠ []) :
    ∀ s, isSubstr sub s = true → 1 ≤ countAux sub s 0 := by
  intro s
  induction s with
  | nil =>
      intro h
      rw [isSubstr, List.isEmpty_eq_true] at h
      exact absurd h hs
  | cons c cs ih =>
      intro h
      rw [isSubstr, Bool.or_eq_true] at h
      by_cases hpre : sub.isPrefixOf (c :: cs) = true
      · simp only [countAux, if_pos hpre]
        omega
      · simp only [countAux, if_neg hpre]
        exact ih (h.resolve_left hpre)

theorem pyCount_pos {s sub : Str} (hs : sub ≠ []) (h : isSubstr sub s = true) :
    1 ≤ pyCount s sub := by
  rw [pyCount, if_neg (by simpa [List.isEmpty_eq_true] using hs)]
  exact countAux_pos hs s h

/-! ### The search pipeline depends on the keyword only through its
lowercasing -/

theorem buildPreds_map_id {predict : Nat → Nat → Int} {u : Nat}
    {pdf : List Place} :
    ∀ {l : List Nat} {preds : List PredRow},
      buildPreds predict u pdf l = some preds →
      preds.map (fun e => e.place_id) = l := by
  intro l
  induction l with
  | nil =>
      intro preds h
      rw [buildPreds, Option.some_inj] at h
      rw [← h]
      rfl
  | cons p rest ih =>
      intro preds h
      rw [buildPreds] at h
      cases hl : lookupName pdf p with
      | none => rw [hl] at h; exact absurd h (by simp)
      | some nm =>
          rw [hl] at h
          cases hr : buildPreds predict u pdf rest with
          | none => rw [hr] at h; exact absurd h (by simp)
          | some l2 =>
              rw [hr] at h
              rw [show (match some nm, some l2 with
                  | some nm, some l => some (⟨p, nm, predict u p⟩ :: l)
                  | _, _ => (none : Option (List PredRow))) =
                  some (⟨p, nm, predict u p⟩ :: l2) from rfl,
                Option.some_inj] at h
              rw [← h, List.map_cons, ih hr]

theorem lookupName_isSome {pdf : List Place} {p : Nat} (h : p ∈ allPlaces pdf) :
    ∃ nm, lookupName pdf p = some nm := by
  rw [allPlaces] at h
  obtain ⟨q, hq, rfl⟩ := List.mem_map.mp h
  rw [lookupName]
  cases hf : pdf.filter (fun r => r.place_id = q.place_id) with
  | nil =>
      exfalso
      have hmem : q ∈ pdf.filter (fun r => r.place_id = q.place_id) :=
        List.mem_filter.mpr ⟨hq, by simp⟩
      rw [hf] at hmem
      exact absurd hmem (List.not_mem_nil q)
  | cons r rest => exact ⟨r.place_name, rfl⟩

theorem buildPreds_isSome (predict : Nat → Nat → Int) (u : Nat)
    (pdf : List Place) :
    ∀ {l : List Nat}, (∀ p ∈ l, p ∈ allPlaces pdf) →
      ∃ preds, buildPreds predict u pdf l = some preds := by
  intro l
  induction l with
  | nil => intro _; exact ⟨[], rfl⟩
  | cons p rest ih =>
      intro hall
      obtain ⟨nm, hnm⟩ := lookupName_isSome (hall p (List.mem_cons_self _ _))
      obtain ⟨preds, hpreds⟩ := ih (fun q hq => hall q (List.mem_cons_of_mem _ hq))
      refine ⟨⟨p, nm, predict u p⟩ :: preds, ?_⟩
      rw [buildPreds, hnm, hpreds]

theorem recommend_places_eq (predict : Nat → Nat → Int) (rdf : List RatingRow)
    (pdf : List Place) (u : Nat) (n : Int) :
    ∃ preds, buildPreds predict u pdf (unratedPlaces rdf pdf u) = some preds ∧
      recommend_places predict rdf pdf u n =
        some (pySlice n (sortPredsDesc preds)) := by
  have hall : ∀ p ∈ unratedPlaces rdf pdf u, p ∈ allPlaces pdf :=
    fun p hp => List.mem_of_mem_filter hp
  obtain ⟨preds, hp⟩ := buildPreds_isSome predict u pdf hall
  exact ⟨preds, hp, by rw [recommend_places, hp]; rfl⟩

theorem sortPredsDesc_sorted (l : List PredRow) :
    (sortPredsDesc l).Pairwise (fun a b => b.est ≤ a.est) := by
  haveI : IsTotal PredRow (fun a b => b.est ≤ a.est) := ⟨fun a b => le_total _ _⟩
  haveI : IsTrans PredRow (fun a b => b.est ≤ a.est) :=
    ⟨fun _ _ _ h1 h2 => le_trans h2 h1⟩
  exact List.sorted_insertionSort _ l

theorem sortPredsDesc_perm (l : List PredRow) : List.Perm (sortPredsDesc l) l :=
  List.perm_insertionSort _ l

/-! ### Further search lemmas -/

theorem reSearch_nil_kw (s : Str) : reSearch [] s = true := by
  cases s with
  | nil => rfl
  | cons c cs => rw [reSearch]; simp [reMatchAt]

theorem nameMatch_nil_kw (df : List Place) : nameMatch [] df = df :=
  List.filter_eq_self.mpr (fun p _ => reSearch_nil_kw p.place_name)

theorem length_search_place (kw : Str) (df : List Place) :
    (search_place kw df).length = (matchedPlaces kw df).length := by
  rw [search_place]
  by_cases hm : (matchedPlaces kw df).isEmpty
  · rw [if_pos hm]
    rw [List.isEmpty_eq_true] at hm
    rw [hm]
    rfl
  · rw [if_neg hm, sortValuesDesc, List.length_reverse,
      List.length_insertionSort, scoredResults, List.length_map]

/-! ### Claim theorems -/

/-- C2 counterexample: on a one-place catalog, searching with the empty
keyword returns that place (scored `4`), not the empty sequence the
claim demands: the empty pattern matches every string and Python's
`count("")` returns `len + 1`. -/
theorem search_place_empty_kw_cex :
    search_place (("").data) [placeA] = [(placeA, 4)] ∧
      search_place (("").data) [placeA] ≠ [] :=
  ⟨by decide, by decide⟩

/-- C2 (amended): searching with the empty keyword returns the empty
sequence exactly when the place catalog is empty; on a non-empty catalog
every place matches the empty pattern and is returned.  (The UI guard at
app.py line 109 keeps empty queries away from `search_place`.) -/
theorem search_place_empty_kw (df : List Place) :
    search_place (("").data) df = [] ↔ df = [] := by
  rw [show (("").data : Str) = [] from rfl]
  rw [← List.length_eq_zero, ← List.length_eq_zero, length_search_place]
  constructor
  · intro h
    rw [List.length_eq_zero, matchedPlaces, dropDuplicates_eq_nil,
      List.append_eq_nil] at h
    rw [List.length_eq_zero]
    exact (nameMatch_nil_kw df) ▸ h.1
  · intro h
    rw [List.length_eq_zero] at h
    subst h
    rfl

/-- C3: every entry returned by `search_place` carries relevance equal
to twice the number of case-insensitive occurrences of the keyword in
the place's name plus the number of occurrences in its description (a
missing description contributing 0); and the spec's worked example,
place "Borobudur Temple" with description "Visit Borobudur for
sunrise", scores `3` for the query "Borobudur". -/
theorem relevance_score_spec :
    (∀ (kw : Str) (df : List Place) (e : Place × Nat), e ∈ search_place kw df →
        e.2 = 2 * pyCount (lowerStr e.1.place_name) (lowerStr kw) +
          (match e.1.description with
           | some d => pyCount (lowerStr d) (lowerStr kw)
           | none => 0)) ∧
    relevance_score (("Borobudur").data) placeBoro = 3 ∧
    search_place (("Borobudur").data) [placeBoro] = [eBoro] := by
  refine ⟨?_, by decide, by decide⟩
  intro kw df e he
  obtain ⟨p, hp, rfl⟩ := mem_search_place.mp he
  rfl

/-- C3 witness: the formula evaluated at the worked example. -/
theorem relevance_score_spec_witness :
    eBoro.2 = 2 * pyCount (lowerStr eBoro.1.place_name)
        (lowerStr (("Borobudur").data)) +
      (match eBoro.1.description with
       | some d => pyCount (lowerStr d) (lowerStr (("Borobudur").data))
       | none => 0) :=
  relevance_score_spec.1 (("Borobudur").data) [placeBoro] eBoro (by decide)

/-- C5 counterexample: with two candidate places and `top_n = -1`,
`recommend_places` returns one prediction, not the empty sequence: the
Python slice `predictions[:-1]` drops only the last element. -/
theorem recommend_places_nonpos_cex :
    (-1 : Int) ≤ 0 ∧
      recommend_places pcC [] pdfC 0 (-1) = some [⟨2, ("B").data, 2⟩] ∧
      recommend_places pcC [] pdfC 0 (-1) ≠ some [] :=
  ⟨by decide, by decide, by decide⟩

/-- C5 (amended): `recommend_places(u, 0)` returns the empty sequence,
but for negative `top_n` Python slice semantics return all predictions
except the last `|top_n|`, so the result has length
`(number of candidates) - |top_n|` (truncated at zero) and is empty only
when there are at most `|top_n|` candidates. -/
theorem recommend_places_nonpos (predict : Nat → Nat → Int)
    (rdf : List RatingRow) (pdf : List Place) (u : Nat) :
    recommend_places predict rdf pdf u 0 = some [] ∧
    ∀ (n : Int) (out : List PredRow), n < 0 →
      recommend_places predict rdf pdf u n = some out →
      out.length = (unratedPlaces rdf pdf u).length - (-n).toNat := by
  constructor
  · obtain ⟨preds, _, h0⟩ := recommend_places_eq predict rdf pdf u 0
    rw [h0]
    simp [pySlice]
  · intro n out hn hout
    obtain ⟨preds, hb, heq⟩ := recommend_places_eq predict rdf pdf u n
    have hx : out = pySlice n (sortPredsDesc preds) :=
      Option.some_inj.mp (hout.symm.trans heq)
    have hlen : (sortPredsDesc preds).length =
        (unratedPlaces rdf pdf u).length := by
      rw [sortPredsDesc, List.length_insertionSort]
      have h1 := congrArg List.length (buildPreds_map_id hb)
      simpa using h1
    rw [hx]
    simp only [pySlice, if_neg (not_le.mpr hn), List.length_take, hlen]
    exact Nat.min_eq_left (Nat.sub_le _ _)

/-- C5 witness: both amended conjuncts at concrete inputs. -/
theorem recommend_places_nonpos_witness :
    recommend_places pcC [] pdfC 0 0 = some [] ∧
      ([⟨2, ("B").data, 2⟩] : List PredRow).length =
        (unratedPlaces [] pdfC 0).length - ((-(-1 : Int)).toNat) :=
  ⟨(recommend_places_nonpos pcC [] pdfC 0).1,
   (recommend_places_nonpos pcC [] pdfC 0).2 (-1) [⟨2, ("B").data, 2⟩]
     (by decide) (by decide)⟩

/-- C6 counterexample: two places with equal relevance appear in the
search output in the reverse of their order in the matched/deduplicated
set of step 1 (pandas `ascending=False` reverses the ascending order,
ties included), so the sort is not stable as claimed. -/
theorem search_ties_cex :
    scoredResults (("x").data) [p1, p2] = [(p1, 2), (p2, 2)] ∧
      search_place (("x").data) [p1, p2] = [(p2, 2), (p1, 2)] :=
  ⟨by decide, by decide⟩

/-- C6 (amended): when two search results have equal relevance scores
they appear in the output in the REVERSED relative order of the
matched/deduplicated set of step 1: the descending sort is implemented
as a stable ascending sort followed by a reversal. -/
theorem search_ties_reversed (kw : Str) (df : List Place) (a b : Place × Nat)
    (hab : a.2 = b.2) (h : List.Sublist [a, b] (scoredResults kw df)) :
    List.Sublist [b, a] (search_place kw df) := by
  have hne : ¬ (matchedPlaces kw df).isEmpty := by
    intro hm
    rw [List.isEmpty_eq_true] at hm
    have hsc : scoredResults kw df = [] := by rw [scoredResults, hm]; rfl
    rw [hsc] at h
    have := List.sublist_nil.mp h
    exact absurd this (by simp)
  rw [search_place, if_neg hne, sortValuesDesc]
  have hs : List.Sublist [a, b]
      (List.insertionSort (fun x y => x.2 ≤ y.2) (scoredResults kw df)) :=
    List.pair_sublist_insertionSort (le_of_eq hab) h
  simpa using hs.reverse

/-- C6 witness: the reversed-tie conclusion at the counterexample
catalog. -/
theorem search_ties_reversed_witness :
    List.Sublist [(p2, 2), (p1, 2)] (search_place (("x").data) [p1, p2]) :=
  search_ties_reversed (("x").data) [p1, p2] (p1, 2) (p2, 2) (by decide)
    (by decide)

/-- C9: for every place id in the unrated candidate set the catalog name
lookup succeeds (so the `[0]` indexing in app.py line 62 cannot raise),
and `recommend_places` is total: it returns a value for every user id
and every `top_n`. -/
theorem recommend_places_total (predict : Nat → Nat → Int)
    (rdf : List RatingRow) (pdf : List Place) (u : Nat) (n : Int) :
    (∀ p ∈ unratedPlaces rdf pdf u, ∃ nm, lookupName pdf p = some nm) ∧
    (recommend_places predict rdf pdf u n).isSome = true := by
  constructor
  · intro p hp
    exact lookupName_isSome (List.mem_of_mem_filter hp)
  · obtain ⟨preds, _, h2⟩ := recommend_places_eq predict rdf pdf u n
    rw [h2]
    rfl

/-- C9 witness: the lookup succeeds for the concrete candidate `2` and
the recommendation is defined on the concrete catalog. -/
theorem recommend_places_total_witness :
    (∃ nm, lookupName pdfC 2 = some nm) ∧
      (recommend_places pcC [] pdfC 0 5).isSome = true :=
  ⟨(recommend_places_total pcC [] pdfC 0 5).1 2 (by decide),
   (recommend_places_total pcC [] pdfC 0 5).2⟩

/-- C1: for `top_n = n ≥ 0`, `recommend_places` returns at most `n`
entries, none of whose place ids appears among the user's rated places,
sorted by estimated rating descending; and when at most `n` candidates
exist it returns exactly all of them (their ids are a permutation of the
whole unrated candidate set). -/
theorem recommend_places_spec (predict : Nat → Nat → Int)
    (rdf : List RatingRow) (pdf : List Place) (u : Nat) (n : Int)
    (out : List PredRow) (hn : 0 ≤ n)
    (hout : recommend_places predict rdf pdf u n = some out) :
    out.length ≤ n.toNat ∧
    (∀ e ∈ out, e.place_id ∉ ratedPlaces rdf u) ∧
    out.Pairwise (fun a b => b.est ≤ a.est) ∧
    ((unratedPlaces rdf pdf u).length ≤ n.toNat →
      List.Perm (out.map (fun e => e.place_id)) (unratedPlaces rdf pdf u)) := by
  obtain ⟨preds, hb, heq⟩ := recommend_places_eq predict rdf pdf u n
  have hx : out = (sortPredsDesc preds).take n.toNat := by
    have h1 : out = pySlice n (sortPredsDesc preds) :=
      Option.some_inj.mp (hout.symm.trans heq)
    rw [h1]
    simp only [pySlice, if_pos hn]
  have hlenpreds : preds.length = (unratedPlaces rdf pdf u).length := by
    have h1 := congrArg List.length (buildPreds_map_id hb)
    simpa using h1
  refine ⟨?_, ?_, ?_, ?_⟩
  · rw [hx, List.length_take]
    exact Nat.min_le_left _ _
  · intro e he
    rw [hx] at he
    have h1 : e ∈ sortPredsDesc preds := List.take_subset _ _ he
    have h2 : e ∈ preds := (sortPredsDesc_perm preds).mem_iff.mp h1
    have h3 : e.place_id ∈ preds.map (fun e => e.place_id) :=
      List.mem_map_of_mem _ h2
    rw [buildPreds_map_id hb] at h3
    have h4 := List.of_mem_filter h3
    simpa using h4
  · rw [hx]
    exact List.Pairwise.sublist (List.take_sublist _ _)
      (sortPredsDesc_sorted preds)
  · intro hle
    have hlensort : (sortPredsDesc preds).length =
        (unratedPlaces rdf pdf u).length := by
      rw [sortPredsDesc, List.length_insertionSort, hlenpreds]
    have htake : (sortPredsDesc preds).take n.toNat = sortPredsDesc preds :=
      List.take_of_length_le (by omega)
    rw [hx, htake]
    have hperm := (sortPredsDesc_perm preds).map (fun e => e.place_id)
    rw [buildPreds_map_id hb] at hperm
    exact hperm

/-- C1 witness: the length bound at a concrete model and catalog. -/
theorem recommend_places_spec_witness :
    ([⟨2, ("B").data, 2⟩] : List PredRow).length ≤ (1 : Int).toNat :=
  (recommend_places_spec pcC [] pdfC 0 1 [⟨2, ("B").data, 2⟩]
    (by decide) (by decide)).1

/-- C4 counterexample: with keyword "." (a regex metacharacter), a place
named "ab" with no description is returned by the search even though its
name does not contain "." as a literal substring: `str.contains` treats
the keyword as a regular expression, so the claim's "for every keyword"
fails. -/
theorem search_place_literal_cex :
    search_place ((".").data) [placeAB] = [(placeAB, 0)] ∧
      containsCI ((".").data) placeAB.place_name = false ∧
      placeAB.description = none :=
  ⟨by decide, by decide, by decide⟩

/-- C4 (amended): for keywords free of regex metacharacters (in the
embedded fragment: containing no "." and no backslash character), the
places returned by the search are exactly those whose name or non-null
description contains the keyword as a case-insensitive literal
substring, a null description never matches, and each place appears
exactly once in the results. -/
theorem search_place_literal (kw : Str) (df : List Place)
    (hdot : ('.' : Char) ∉ kw) (hbs : ('\\' : Char) ∉ kw) :
    (∀ p : Place, p ∈ (search_place kw df).map Prod.fst ↔
        (p ∈ df ∧ (containsCI kw p.place_name = true ∨
          ∃ d, p.description = some d ∧ containsCI kw d = true))) ∧
    ((search_place kw df).map Prod.fst).Nodup := by
  constructor
  · intro p
    constructor
    · intro hp
      obtain ⟨e, he, rfl⟩ := List.mem_map.mp hp
      obtain ⟨q, hq, rfl⟩ := mem_search_place.mp he
      have hmm := mem_matchedPlaces.mp hq
      refine ⟨hmm.1, ?_⟩
      rcases hmm.2 with h | ⟨d, hd, h⟩
      · exact Or.inl ((reSearch_iff hdot hbs _).mp h)
      · exact Or.inr ⟨d, hd, (reSearch_iff hdot hbs _).mp h⟩
    · rintro ⟨hdf, hmatch⟩
      have hq : p ∈ matchedPlaces kw df := by
        refine mem_matchedPlaces.mpr ⟨hdf, ?_⟩
        rcases hmatch with h | ⟨d, hd, h⟩
        · exact Or.inl ((reSearch_iff hdot hbs _).mpr h)
        · exact Or.inr ⟨d, hd, (reSearch_iff hdot hbs _).mpr h⟩
      refine List.mem_map.mpr ⟨(p, relevance_score kw p), ?_, rfl⟩
      exact mem_search_place.mpr ⟨p, hq, rfl⟩
  · by_cases hm : (matchedPlaces kw df).isEmpty
    · rw [search_place, if_pos hm]
      simp
    · rw [search_place, if_neg hm]
      have hperm : List.Perm (sortValuesDesc (scoredResults kw df))
          (scoredResults kw df) := by
        rw [sortValuesDesc]
        exact (List.reverse_perm _).trans (List.perm_insertionSort _ _)
      have hpermmap := hperm.map Prod.fst
      have hmapeq : (scoredResults kw df).map Prod.fst =
          matchedPlaces kw df := by
        rw [scoredResults, List.map_map]
        rw [show (Prod.fst ∘ fun p => (p, relevance_score kw p)) =
            (id : Place → Place) from rfl]
        exact List.map_id _
      rw [hmapeq] at hpermmap
      exact hpermmap.symm.nodup (nodup_dropDuplicates _)

/-- C4 witness: the dedup conclusion at a concrete dot-free keyword. -/
theorem search_place_literal_witness :
    ((search_place (("a").data) [placeA]).map Prod.fst).Nodup :=
  (search_place_literal (("a").data) [placeA] (by decide) (by decide)).2

/-- C7: the average rating is undefined (pandas `NaN`, shown as "no
rating yet") exactly when no rating row matches the place name
case-insensitively; otherwise it is the arithmetic mean of all matching
rating values, duplicates included; ratings `[4, 5, 3]` average to `4`
(queried with different letter case), and an empty table averages to the
unknown value, never `0`. -/
theorem avg_rating_spec (rdf : List RatingRow) (nm : Str) :
    (avg_rating rdf nm = none ↔ ratingsFor rdf nm = []) ∧
    (ratingsFor rdf nm ≠ [] →
      avg_rating rdf nm =
        some ((((ratingsFor rdf nm).map (fun v => (v : Rat))).sum) /
          ((ratingsFor rdf nm).length : Rat))) ∧
    avg_rating rdfEx (("X").data) = some 4 ∧
    avg_rating [] (("x").data) = none := by
  have hdef : avg_rating rdf nm = seriesMean (ratingsFor rdf nm) := rfl
  refine ⟨?_, ?_, ?_, rfl⟩
  · rw [hdef, seriesMean]
    cases hl : ratingsFor rdf nm with
    | nil => simp
    | cons v vs => simp
  · intro hne
    rw [hdef, seriesMean,
      if_neg (by simpa [List.isEmpty_eq_true] using hne)]
  · have h1 : ratingsFor rdfEx (("X").data) = [4, 5, 3] := by decide
    have h2 : avg_rating rdfEx (("X").data) =
        seriesMean (ratingsFor rdfEx (("X").data)) := rfl
    rw [h2, h1, seriesMean]
    norm_num

/-- C7 witness: the mean formula at the concrete three-rating table. -/
theorem avg_rating_spec_witness :
    avg_rating rdfEx (("X").data) =
      some ((((ratingsFor rdfEx (("X").data)).map (fun v => (v : Rat))).sum) /
        ((ratingsFor rdfEx (("X").data)).length : Rat)) :=
  (avg_rating_spec rdfEx (("X").data)).2.1 (by decide)

/-- C10: for a non-empty keyword free of regex metacharacters (in the
embedded fragment: no "." and no backslash), every search result has
relevance score at least 1: the returned place contains the keyword in
its name (worth 2) or in its description (worth 1). -/
theorem search_results_relevant (kw : Str) (df : List Place)
    (e : Place × Nat) (hk : kw ≠ []) (hdot : ('.' : Char) ∉ kw)
    (hbs : ('\\' : Char) ∉ kw) (he : e ∈ search_place kw df) : 1 ≤ e.2 := by
  obtain ⟨p, hp, rfl⟩ := mem_search_place.mp he
  have hm := (mem_matchedPlaces.mp hp).2
  have hlkw : lowerStr kw ≠ [] := by
    intro hnil
    exact hk (by simpa [lowerStr, List.map_eq_nil_iff] using hnil)
  show 1 ≤ relevance_score kw p
  rcases hm with h | ⟨d, hd, h⟩
  · have h1 := pyCount_pos hlkw ((reSearch_iff hdot hbs _).mp h)
    rw [relevance_score]
    omega
  · have h1 := pyCount_pos hlkw ((reSearch_iff hdot hbs _).mp h)
    simp only [relevance_score, hd]
    omega

/-- C10 witness: the bound at the spec's worked example. -/
theorem search_results_relevant_witness : 1 ≤ eBoro.2 :=
  search_results_relevant (("Borobudur").data) [placeBoro] eBoro
    (by decide) (by decide) (by decide) (by decide)
